import Mathlib

/-!
Shallow embedding of the ai-subtitle-contextualizer repository
(src/utils/text_utils.py, src/clipboard/text_processor.py,
src/clipboard/monitor.py, src/ai/llama_client.py, src/ai/prompt_manager.py,
src/ui/overlay_window.py, src/main.py) and proofs about it.

Strings are modelled as Lean `String`/`List Char`; the character classes of
the Python regexes (`\s`, `\w`) and of `str.strip`/`str.isspace` are modelled
by their ASCII behaviour, which coincides with CPython on ASCII input; every
concrete input appearing in a theorem below is ASCII.  Fallible Python code is
modelled with `Except`/`Option`; a raised exception is an `Except.error`.
-/

namespace SubCtx

/-- Modelled Python exception values (only the distinctions the embedded code
observes are kept: `except KeyError` clauses distinguish `keyError`). -/
inductive PyExc where
  | keyError
  | indexError
  | valueError
  | typeError
  | other (msg : String)
deriving DecidableEq

/-- ASCII behaviour of the Python regex class `\s` and of `str.isspace`:
space, tab, newline, carriage return, vertical tab, form feed. -/
def isSpacePy (c : Char) : Bool :=
  c = ' ' || c = '\t' || c = '\n' || c = '\r' || c = '\x0b' || c = '\x0c'

/-- ASCII behaviour of the Python regex class `\w`: alphanumerics and
underscore. -/
def isWordChar (c : Char) : Bool :=
  c.isAlphanum || c = '_'

/-- Character allow-list of the second `re.sub` in `clean_subtitle_text`
(src/utils/text_utils.py line 19): the complement of
`[^\w\s\.,\!\?\:\;\-\'""]`, i.e. word characters, whitespace and the listed
punctuation. -/
def allowedChar (c : Char) : Bool :=
  isWordChar c || isSpacePy c || c = '.' || c = ',' || c = '!' || c = '?' ||
    c = ':' || c = ';' || c = '-' || c = '\'' || c = '"'

/-- Python `str.strip()`: drop leading and trailing whitespace. -/
def stripWS (l : List Char) : List Char :=
  ((l.dropWhile isSpacePy).reverse.dropWhile isSpacePy).reverse

/-- Python `re.sub(r'\s+', ' ', ·)`: replace every maximal run of whitespace
characters by a single space. -/
def collapseWS : List Char → List Char
  | [] => []
  | [c] => [if isSpacePy c then ' ' else c]
  | c1 :: c2 :: cs =>
      if isSpacePy c1 && isSpacePy c2 then collapseWS (c2 :: cs)
      else (if isSpacePy c1 then ' ' else c1) :: collapseWS (c2 :: cs)

/-- Embeds `clean_subtitle_text` (src/utils/text_utils.py): empty input maps
to `""`; otherwise strip, collapse whitespace runs to single spaces, then
remove characters outside the allow-list. -/
def clean_subtitle_text (raw_text : String) : String :=
  if raw_text = "" then ""
  else String.mk ((collapseWS (stripWS raw_text.data)).filter allowedChar)

/-- List-level core of `clean_subtitle_text`: the strip / collapse / remove
pipeline without the `String` wrapper (on `[]` both agree). -/
def cleanL (l : List Char) : List Char :=
  (collapseWS (stripWS l)).filter allowedChar

/-- No two adjacent whitespace characters (the shape `re.sub(r'\s+', ' ', ·)`
guarantees). -/
def noAdjSp : List Char → Bool
  | c1 :: c2 :: cs => !(isSpacePy c1 && isSpacePy c2) && noAdjSp (c2 :: cs)
  | _ => true

/-- Embeds `TextProcessor.should_process` (src/clipboard/text_processor.py);
`min_length` defaults to 1 in the source constructor. -/
def should_process (min_length : Nat) (text : String) : Bool :=
  if text = "" then false
  else if (stripWS text.data).length < min_length then false
  else true

/-- Embeds `TextProcessor.process_text` (src/clipboard/text_processor.py). -/
def process_text (min_length : Nat) (raw_text : String) : Option String :=
  if !(should_process min_length raw_text) then none
  else
    let cleaned := clean_subtitle_text raw_text
    if cleaned = "" then none else some cleaned

/-- Python substring membership `tok in s` (`str.__contains__`). -/
def containsTok (tok : List Char) : List Char → Bool
  | [] => tok.isPrefixOf []
  | c :: t => tok.isPrefixOf (c :: t) || containsTok tok t

/-- State of the `str.format` scanner: copying literal text, or collecting a
replacement-field name after an opening brace. -/
inductive FmtState where
  | lit
  | field (acc : List Char)

/-- Models CPython `str.format` called with a single keyword argument `kw`
bound to `val`, restricted to plain replacement fields: `\x7bname\x7d`
substitutes, `\x7b\x7b`/`\x7d\x7d` escape to literal braces, an empty or
all-digit field raises IndexError (positional field with no positional
argument), any other field name raises KeyError, and an unmatched brace
raises ValueError.  Conversions (`!r`) and format specs (`:...`) of the full
builtin are not used by the repository's templates and are not modelled. -/
def pyFormatAux (kw val : List Char) : FmtState → List Char → Except PyExc (List Char)
  | .lit, [] => .ok []
  | .lit, c :: rest =>
      if c = '\x7b' then
        match rest with
        | [] => .error .valueError
        | r :: rest' =>
            if r = '\x7b' then (pyFormatAux kw val .lit rest').map (fun l => '\x7b' :: l)
            else pyFormatAux kw val (.field []) (r :: rest')
      else if c = '\x7d' then
        match rest with
        | [] => .error .valueError
        | r :: rest' =>
            if r = '\x7d' then (pyFormatAux kw val .lit rest').map (fun l => '\x7d' :: l)
            else .error .valueError
      else (pyFormatAux kw val .lit rest).map (fun l => c :: l)
  | .field _, [] => .error .valueError
  | .field acc, c :: rest =>
      if c = '\x7d' then
        if acc = kw then (pyFormatAux kw val .lit rest).map (fun l => val ++ l)
        else if acc = [] || acc.all Char.isDigit then .error .indexError
        else .error .keyError
      else pyFormatAux kw val (.field (acc ++ [c])) rest

/-- Python `template.format(kw=val)` on strings, via `pyFormatAux`. -/
def pyFormat (kw val template : String) : Except PyExc String :=
  (pyFormatAux kw.data val.data .lit template.data).map String.mk

/-- Embeds `PromptManager.get_prompt_for_text` (src/ai/prompt_manager.py):
try the primary placeholder, then the generic one, else append the text as a
suffix; a `KeyError` from formatting also falls back to the suffix form, any
other formatting exception propagates. -/
def get_prompt_for_text (system_prompt text : String) : Except PyExc String :=
  if containsTok "\x7bsubtitle_text\x7d".data system_prompt.data then
    match pyFormat "subtitle_text" text system_prompt with
    | .ok r => .ok r
    | .error .keyError => .ok (system_prompt ++ "\n\nText to analyze: " ++ text)
    | .error e => .error e
  else if containsTok "\x7btext\x7d".data system_prompt.data then
    match pyFormat "text" text system_prompt with
    | .ok r => .ok r
    | .error .keyError => .ok (system_prompt ++ "\n\nText to analyze: " ++ text)
    | .error e => .error e
  else .ok (system_prompt ++ "\n\nText to analyze: " ++ text)

/-- Embeds `LlamaClient.get_context` (src/ai/llama_client.py).  The `ollama`
collaborator is an oracle `chat : system → user → Except PyExc String`
describing what `ollama.chat` (plus the response-field extraction) would do;
the second component counts how many provider calls were attempted.  The
`try/except` around the call catches every exception and returns `None`. -/
def get_context (is_available : Bool) (text system_prompt : String)
    (chat : String → String → Except PyExc String) : Option String × Nat :=
  if !is_available then (none, 0)
  else if text = "" || stripWS text.data = [] then (none, 0)
  else
    match chat system_prompt text with
    | .ok result => (some result, 1)
    | .error _ => (none, 1)

/-- Observable outcome of one iteration of `ClipboardMonitor._monitor_loop`
(src/clipboard/monitor.py): the new `last_text`, the text the callback was
invoked with (if any), the callback exception that was caught and logged (if
any), and whether the longer error backoff sleep was taken. -/
structure IterResult where
  last_text : String
  invoked : Option String
  caught : Option PyExc
  backoffSleep : Bool
deriving DecidableEq

/-- Embeds one iteration of `ClipboardMonitor._monitor_loop`: read the
clipboard (`pasteResult`; a read exception is caught and answered by the
longer sleep), compare with `last_text`, and on a non-blank change update
`last_text` and invoke the callback, catching any exception it raises. -/
def monitorIteration (last_text : String) (pasteResult : Except PyExc (Option String))
    (callback : String → Except PyExc Unit) : IterResult :=
  match pasteResult with
  | .error _ => ⟨last_text, none, none, true⟩
  | .ok pasted =>
      let current := pasted.getD ""
      if current ≠ last_text ∧ stripWS current.data ≠ [] then
        match callback current with
        | .ok _ => ⟨current, some current, none, false⟩
        | .error e => ⟨current, some current, some e, false⟩
      else ⟨last_text, none, none, false⟩

/-- Runs `_monitor_loop` over a finite script of per-iteration clipboard
reads and callback behaviours, threading `last_text` through; one trace entry
per iteration shows the loop reaching every iteration of the script. -/
def monitorLoopRun (last_text : String) :
    List ((Except PyExc (Option String)) × (String → Except PyExc Unit)) → List IterResult
  | [] => []
  | (p, cb) :: script =>
      let r := monitorIteration last_text p cb
      r :: monitorLoopRun r.last_text script

/-- Queue item of `OverlayWindow.update_queue`: the `(action, args)` pair put
by `queue_update`.  `args` is an `Option String` because
`OverlayWindow.update_content` forwards `response` verbatim, and `main.py`
can pass it `None` (the other producers always pass a string; `queue_update`
itself defaults `args` to `""`). -/
abbrev QItem := String × Option String

/-- Embeds `OverlayWindow.queue_update` (src/ui/overlay_window.py): FIFO put. -/
def queue_update (q : List QItem) (action : String) (args : Option String) : List QItem :=
  q ++ [(action, args)]

/-- Embeds `OverlayWindow.show_loading`: `queue_update("loading")` with the
default `args=""`. -/
def show_loading (q : List QItem) : List QItem :=
  queue_update q "loading" (some "")

/-- Embeds `OverlayWindow.update_content`: `queue_update("content", text)`. -/
def update_content (q : List QItem) (text : Option String) : List QItem :=
  queue_update q "content" text

/-- Embeds `OverlayWindow.show_error`: `queue_update("error", message)`. -/
def show_error (q : List QItem) (error_message : String) : List QItem :=
  queue_update q "error" (some error_message)

/-- Observable UI mutations performed by the `_do_*` handlers that
`_process_queue` dispatches to (each render handler ends by calling
`_do_show`). -/
inductive UIEffect where
  | contentRender (text : String)
  | loadingRender
  | errorRender (msg : Option String)
  | showWin
  | hideWin
deriving DecidableEq

/-- Effects of dispatching one dequeued `(action, args)` pair in
`OverlayWindow._process_queue`: `_do_update_content` renders then shows,
`_do_show_loading`/`_do_show_error` replace the text then show, `show`/`hide`
toggle visibility, and an unrecognized action falls through the `elif` chain
doing nothing.  `_do_update_content(None)` raises `TypeError` inside
`_render_markdown` (`re.finditer` on `None`). -/
def dispatchCmd (item : QItem) : Except PyExc (List UIEffect) :=
  if item.1 = "content" then
    match item.2 with
    | some t => .ok [.contentRender t, .showWin]
    | none => .error .typeError
  else if item.1 = "loading" then .ok [.loadingRender, .showWin]
  else if item.1 = "error" then .ok [.errorRender item.2, .showWin]
  else if item.1 = "show" then .ok [.showWin]
  else if item.1 = "hide" then .ok [.hideWin]
  else .ok []

/-- Result of one drain by `OverlayWindow._process_queue`: the UI effects
applied in order, the items still queued when the drain stopped, and the
exception that escaped the drain, if any (`queue.Empty` alone is caught). -/
structure DrainResult where
  effects : List UIEffect
  remaining : List QItem
  raised : Option PyExc
deriving DecidableEq

/-- Embeds `OverlayWindow._process_queue`: repeatedly `get_nowait` and
dispatch until the queue is momentarily empty; only `queue.Empty` is caught,
so an exception from a handler stops the drain and escapes. -/
def processQueueDrain : List QItem → DrainResult
  | [] => ⟨[], [], none⟩
  | item :: rest =>
      match dispatchCmd item with
      | .error e => ⟨[], rest, some e⟩
      | .ok effs =>
          let r := processQueueDrain rest
          ⟨effs ++ r.effects, r.remaining, r.raised⟩

/-- Effects a well-formed queued command contributes to a drain. -/
def cmdEffects (item : QItem) : List UIEffect :=
  ((dispatchCmd item).toOption).getD []

/-- Every queued `content` command carries a string payload, as the `args:
str` signature of `queue_update` promises. -/
def wellFormedQueue (q : List QItem) : Bool :=
  q.all fun item => !(item.1 == "content" && item.2.isNone)

/-- Events of one run of `AISubtitleContextualizer._process_text`
(src/main.py), in program order: the flag writes, the collaborator calls, and
the `queue_update` puts into the overlay's update queue. -/
inductive OrchEvent where
  | setFlag
  | clearFlag
  | promptBuild
  | providerCall
  | enqueue (action : String) (args : Option String)
deriving DecidableEq

/-- Orchestrator state: `is_processing` plus the overlay's update queue. -/
structure OrchState where
  is_processing : Bool
  queue : List QItem
deriving DecidableEq

/-- Oracle for one processing cycle: what `get_prompt_for_text` and
`get_context` would do when called (`Except.error` models a raised
exception). -/
structure CycleEnv where
  promptResult : Except PyExc String
  providerResult : Except PyExc (Option String)

/-- Python `str(e)` for a modelled exception, as passed to `show_error`. -/
def excMessage : PyExc → String
  | .keyError => "KeyError"
  | .indexError => "IndexError"
  | .valueError => "ValueError"
  | .typeError => "TypeError"
  | .other msg => msg

/-- Embeds `AISubtitleContextualizer._process_text`: set `is_processing`,
then inside `try`: `show_loading`, build the prompt, call the provider, and
`update_content` with whatever the provider returned; `except Exception`
converts a raised exception into a `show_error`; `finally` clears
`is_processing` on every path.  Returns the final state and the event trace
in program order. -/
def processTextRun (st : OrchState) (env : CycleEnv) : OrchState × List OrchEvent :=
  let q1 := show_loading st.queue
  let ev1 : List OrchEvent := [.setFlag, .enqueue "loading" (some "")]
  match env.promptResult with
  | .error e =>
      (⟨false, show_error q1 (excMessage e)⟩,
        ev1 ++ [.promptBuild, .enqueue "error" (some (excMessage e)), .clearFlag])
  | .ok _formatted =>
      match env.providerResult with
      | .error e =>
          (⟨false, show_error q1 (excMessage e)⟩,
            ev1 ++ [.promptBuild, .providerCall,
              .enqueue "error" (some (excMessage e)), .clearFlag])
      | .ok response =>
          (⟨false, update_content q1 response⟩,
            ev1 ++ [.promptBuild, .providerCall, .enqueue "content" response, .clearFlag])

/-- Embeds `AISubtitleContextualizer._on_text_detected`: if `is_processing`
is set the detected text is dropped (no state change, no events), otherwise
`_process_text` runs. -/
def onTextDetected (st : OrchState) (env : CycleEnv) : OrchState × List OrchEvent :=
  if st.is_processing then (st, []) else processTextRun st env

/-- Formatting tags configured by `OverlayWindow._configure_text_tags`. -/
inductive MdTag where
  | bold_italic
  | bold
  | italic
deriving DecidableEq

/-- Non-greedy close search for one marker pattern `marker(.+?)marker` of
`OverlayWindow._render_markdown`: given the text after an opening marker,
find the shortest non-empty newline-free content followed by the closing
marker; returns the content and the text after the closing marker (`.` does
not match a newline). -/
def findClose (marker : List Char) : List Char → Option (List Char × List Char)
  | [] => none
  | c :: rest =>
      if c = '\n' then none
      else if marker.isPrefixOf rest then some ([c], rest.drop marker.length)
      else (findClose marker rest).map fun p => (c :: p.1, p.2)

/-- Scan of `re.finditer(pattern, temp_text)` for one marker pattern: split
the text into segments, `(true, content)` for a match (markers removed) and
`(false, [c])` for a literal character; scanning resumes after each match and
advances one character past a failed opener.  The fuel argument bounds the
recursion; `text.length` steps always suffice since every step consumes at
least one character. -/
def scanPat (marker : List Char) : Nat → List Char → List (Bool × List Char)
  | _, [] => []
  | 0, l => [(false, l)]
  | fuel + 1, c :: rest =>
      if marker.isPrefixOf (c :: rest) then
        match findClose marker ((c :: rest).drop marker.length) with
        | some (content, tail) => (true, content) :: scanPat marker fuel tail
        | none => (false, [c]) :: scanPat marker fuel rest
      else (false, [c]) :: scanPat marker fuel rest

/-- One-pattern scan of `_render_markdown` over a text. -/
def scanPattern (marker : List Char) (l : List Char) : List (Bool × List Char) :=
  scanPat marker l.length l

/-- Rebuild pass of `_render_markdown` for one pattern: concatenate the
segments (match markers removed) and record `(start_pos, end_pos, tag)`
ranges, positions counted in the rebuilt text. -/
def applySegs (tag : MdTag) : List (Bool × List Char) → Nat → List Char × List (Nat × Nat × MdTag)
  | [], _ => ([], [])
  | (isMatch, content) :: segs, pos =>
      let rest := applySegs tag segs (pos + content.length)
      (content ++ rest.1,
        if isMatch then (pos, pos + content.length, tag) :: rest.2 else rest.2)

/-- One `for pattern, tag in patterns` iteration of `_render_markdown`. -/
def renderPass (marker : List Char) (tag : MdTag) (text : List Char) :
    List Char × List (Nat × Nat × MdTag) :=
  applySegs tag (scanPattern marker text) 0

/-- Embeds `OverlayWindow._render_markdown` (src/ui/overlay_window.py): the
three marker patterns are applied in precedence order — triple marker
(bold+italic), double marker (bold), single marker (italic) — each pass
rewriting the text of the previous one; the result is the text finally
inserted into the widget and the tag ranges applied to it. -/
def renderMarkdown (text : String) : List Char × List (Nat × Nat × MdTag) :=
  let p1 := renderPass "***".data .bold_italic text.data
  let p2 := renderPass "**".data .bold p1.1
  let p3 := renderPass "*".data .italic p2.1
  (p3.1, p1.2 ++ p2.2 ++ p3.2)

/-! Helper lemmas about the update-channel dispatch. -/

/-- A dispatch can only raise on a `content` command with an absent payload. -/
theorem dispatchCmd_error_shape (a : String) (b : Option String) (e : PyExc)
    (h : dispatchCmd (a, b) = .error e) : a = "content" ∧ b = none := by
  unfold dispatchCmd at h
  split at h
  · split at h <;> simp_all
  · split at h
    · simp_all
    · split at h
      · simp_all
      · split at h
        · simp_all
        · split at h <;> simp_all

/-- On a well-formed command the dispatch succeeds with `cmdEffects`. -/
theorem dispatchCmd_ok (item : QItem) (h : ¬(item.1 = "content" ∧ item.2 = none)) :
    dispatchCmd item = .ok (cmdEffects item) := by
  rcases item with ⟨a, b⟩
  cases hd : dispatchCmd (a, b) with
  | ok effs => simp [cmdEffects, hd, Except.toOption]
  | error e => exact absurd (dispatchCmd_error_shape a b e hd) h

/-- C2: the update channel is FIFO and the consumer applies commands in
enqueue order: draining a well-formed queue with `_process_queue` applies the
per-command UI effects in exactly the order the commands were enqueued, never
reversed, processes every command queued at the time, and leaves the queue
momentarily empty with no exception. -/
theorem update_channel_fifo_drain (q : List QItem) (h : wellFormedQueue q = true) :
    processQueueDrain q = ⟨(q.map cmdEffects).flatten, [], none⟩ := by
  induction q with
  | nil => rfl
  | cons item rest ih =>
      have hall := (List.all_eq_true.mp h)
      have hitem : ¬(item.1 = "content" ∧ item.2 = none) := by
        have := hall item (by simp)
        rcases item with ⟨a, b⟩
        rintro ⟨rfl, rfl⟩
        simp_all
      have hrest : wellFormedQueue rest = true := by
        refine List.all_eq_true.mpr fun x hx => hall x (by simp [hx])
      unfold processQueueDrain
      rw [dispatchCmd_ok item hitem, ih hrest]
      simp

/-- Witness for C2 on the queue of one processing cycle: `Loading` then
`Content("A")` drain to `loading-render` then `content-render("A")`. -/
theorem update_channel_fifo_drain_witness :
    wellFormedQueue [("loading", some ""), ("content", some "A")] = true ∧
      processQueueDrain [("loading", some ""), ("content", some "A")]
        = ⟨[.loadingRender, .showWin, .contentRender "A", .showWin], [], none⟩ :=
  ⟨by decide, by rw [update_channel_fifo_drain _ (by decide)]; rfl⟩

/-- C1: at most one text-processing sequence is in flight at a time: while
`is_processing` is set, `_on_text_detected` drops the detected text (state
unchanged, no event, nothing queued); and `_process_text` sets the flag as
its first step and clears it on every exit path, including when the
prompt-build or provider step raises. -/
theorem processing_flag_guards_cycle (st : OrchState) (env : CycleEnv) :
    (st.is_processing = true → onTextDetected st env = (st, [])) ∧
    (processTextRun st env).1.is_processing = false ∧
    (processTextRun st env).2.head? = some .setFlag ∧
    (processTextRun st env).2.getLast? = some .clearFlag := by
  refine ⟨fun h => by simp [onTextDetected, h], ?_, ?_, ?_⟩ <;>
    · rcases env with ⟨p, r⟩
      unfold processTextRun
      cases p <;> try cases r
      all_goals simp [List.getLast?]

/-- Witness for C1: with the flag set, a second detected text is dropped. -/
theorem processing_flag_guards_cycle_witness :
    onTextDetected ⟨true, []⟩ ⟨.ok "p", .ok (some "r")⟩ = (⟨true, []⟩, []) :=
  (processing_flag_guards_cycle ⟨true, []⟩ ⟨.ok "p", .ok (some "r")⟩).1 rfl

/-- C3 (at the failing input): `get_context` converts a raised provider
exception into `None` instead of raising, but when the provider fails with
`None` the orchestrator enqueues a `content` command carrying `None` — not an
`error` command — and draining that queue raises `TypeError` out of the UI
tick instead of displaying an error. -/
theorem provider_none_enqueued_as_content :
    get_context true "hola" "sys" (fun _ _ => .error (.other "connection refused")) = (none, 1) ∧
    (processTextRun ⟨false, []⟩ ⟨.ok "prompt", .ok none⟩).1.queue
        = [("loading", some ""), ("content", none)] ∧
    processQueueDrain [("loading", some ""), ("content", none)]
        = ⟨[.loadingRender, .showWin], [], some .typeError⟩ :=
  ⟨rfl, rfl, rfl⟩

/-- C5 (counterexample): `" "` is a non-empty string on which
`should_process` with the default minimum length returns `false`. -/
theorem should_process_nonempty_counterexample :
    (" " : String) ≠ "" ∧ should_process 1 " " = false := by
  constructor
  · decide
  · decide

/-- C5 (amended): for every string with a non-whitespace character (non-empty
after stripping), `should_process` with the default minimum length returns
`true`; non-empty but whitespace-only strings are rejected. -/
theorem should_process_nonblank (s : String) (h : stripWS s.data ≠ []) :
    should_process 1 s = true := by
  have hne : s ≠ "" := by
    intro he
    subst he
    exact h rfl
  unfold should_process
  simp [hne, Nat.lt_one_iff, List.length_eq_zero, h]

/-- Witness for the amended C5 at `"hi"`. -/
theorem should_process_nonblank_witness :
    stripWS "hi".data ≠ [] ∧ should_process 1 "hi" = true :=
  ⟨by decide, should_process_nonblank "hi" (by decide)⟩

/-- C7: on a polling iteration whose clipboard read succeeds, the callback is
invoked exactly when the current content differs from `last_text` and is
non-blank after trimming; when it is invoked, `last_text` is updated to the
current content (even if the callback then raises); and a callback exception
is caught, so the loop goes on to run every remaining iteration. -/
theorem monitor_iteration_behaviour (last : String) (pasted : Option String)
    (callback : String → Except PyExc Unit) :
    ((monitorIteration last (.ok pasted) callback).invoked = some (pasted.getD "") ↔
      (pasted.getD "" ≠ last ∧ stripWS (pasted.getD "").data ≠ [])) ∧
    ((monitorIteration last (.ok pasted) callback).invoked = none ∨
      (monitorIteration last (.ok pasted) callback).invoked = some (pasted.getD "")) ∧
    ((monitorIteration last (.ok pasted) callback).invoked ≠ none →
      (monitorIteration last (.ok pasted) callback).last_text = pasted.getD "") ∧
    (∀ script, (monitorLoopRun last script).length = script.length) := by
  refine ⟨?_, ?_, ?_, ?_⟩
  · unfold monitorIteration
    by_cases hc : pasted.getD "" ≠ last ∧ stripWS (pasted.getD "").data ≠ []
    · rcases hcb : callback (pasted.getD "") with _ | e <;> simp [hc, hcb]
    · simp [hc]
  · unfold monitorIteration
    by_cases hc : pasted.getD "" ≠ last ∧ stripWS (pasted.getD "").data ≠ []
    · rcases hcb : callback (pasted.getD "") with _ | e <;> simp [hc, hcb]
    · simp [hc]
  · unfold monitorIteration
    by_cases hc : pasted.getD "" ≠ last ∧ stripWS (pasted.getD "").data ≠ []
    · rcases hcb : callback (pasted.getD "") with _ | e <;> simp [hc, hcb]
    · simp [hc]
  · intro script
    induction script generalizing last with
    | nil => rfl
    | cons step rest ih =>
        rcases step with ⟨p, cb⟩
        simpa [monitorLoopRun] using ih _

/-- Witness for C7: a changed, non-blank clipboard content updates
`last_text` even though the callback raises. -/
theorem monitor_iteration_behaviour_witness :
    (monitorIteration "old" (.ok (some "hello"))
        (fun _ => .error (.other "boom"))).last_text = "hello" :=
  (monitor_iteration_behaviour "old" (some "hello")
    (fun _ => .error (.other "boom"))).2.2.1 (by decide)

/-- C8: rendering `"***x***"` produces the displayed text `"x"` carrying a
single bold-and-italic span over all of it, with no residual markers. -/
theorem render_triple_marker :
    renderMarkdown "***x***" = ("x".data, [(0, 1, MdTag.bold_italic)]) := by decide

/-- C9: `process_text` never returns an empty string: every result is `none`
or a non-empty cleaned string. -/
theorem process_text_never_empty (min_length : Nat) (raw_text : String) :
    process_text min_length raw_text ≠ some "" := by
  unfold process_text
  split
  · simp
  · dsimp only
    split
    · simp
    · simp_all

/-- Witness for C9 at a concrete input. -/
theorem process_text_never_empty_witness : process_text 1 "hi" ≠ some "" :=
  process_text_never_empty 1 "hi"

/-- C10: `get_context` returns `None` on every input that is empty or
whitespace-only, without attempting a provider call, whether or not the
provider library is available. -/
theorem get_context_blank_returns_none (is_available : Bool) (text system_prompt : String)
    (chat : String → String → Except PyExc String) (h : stripWS text.data = []) :
    get_context is_available text system_prompt chat = (none, 0) := by
  unfold get_context
  cases is_available <;> simp [h]

/-- Witness for C10 at the whitespace-only text `"  "` with the library
available and a provider that would answer. -/
theorem get_context_blank_returns_none_witness :
    stripWS "  ".data = [] ∧
      get_context true "  " "sys" (fun _ _ => .ok "resp") = (none, 0) :=
  ⟨by decide, get_context_blank_returns_none true "  " "sys" (fun _ _ => .ok "resp") (by decide)⟩

/-! Helper lemmas about substring search and template formatting. -/

theorem isPrefixOf_append_self (tok rest : List Char) :
    tok.isPrefixOf (tok ++ rest) = true := by
  induction tok with
  | nil => simp
  | cons c t ih => simp [List.isPrefixOf, ih]

theorem containsTok_self_append (tok y : List Char) :
    containsTok tok (tok ++ y) = true := by
  cases tok with
  | nil =>
      cases y with
      | nil => rfl
      | cons c t => simp [containsTok]
  | cons a as =>
      have : (a :: as) ++ y = a :: (as ++ y) := rfl
      rw [this]
      unfold containsTok
      rw [show a :: (as ++ y) = (a :: as) ++ y from rfl, isPrefixOf_append_self]
      simp

theorem containsTok_cons_of (tok : List Char) (c : Char) (t : List Char)
    (h : containsTok tok t = true) : containsTok tok (c :: t) = true := by
  unfold containsTok
  rw [h]
  simp

theorem containsTok_append_middle (tok x y : List Char) :
    containsTok tok (x ++ (tok ++ y)) = true := by
  induction x with
  | nil => simpa using containsTok_self_append tok y
  | cons c t ih => simpa using containsTok_cons_of tok c _ ih

theorem containsTok_head_absent (tok l : List Char) (c0 : Char)
    (htok : tok.head? = some c0) (hl : ∀ c ∈ l, c ≠ c0) :
    containsTok tok l = false := by
  induction l with
  | nil =>
      cases tok with
      | nil => simp at htok
      | cons a as => rfl
  | cons c t ih =>
      cases tok with
      | nil => simp at htok
      | cons a as =>
          have ha : a = c0 := by simpa using htok
          have hc : ¬(a = c) := by
            rw [ha]
            exact fun he => hl c (by simp) he.symm
          have hrec : containsTok (a :: as) t = false :=
            ih fun d hd => hl d (by simp [hd])
          unfold containsTok
          rw [hrec]
          simp [List.isPrefixOf, hc]

theorem pyFormatAux_lit_append (kw val A rest : List Char)
    (hA : ∀ c ∈ A, c ≠ '\x7b' ∧ c ≠ '\x7d') :
    pyFormatAux kw val .lit (A ++ rest)
      = (pyFormatAux kw val .lit rest).map fun l => A ++ l := by
  induction A with
  | nil =>
      simp only [List.nil_append]
      cases h : pyFormatAux kw val .lit rest <;> simp [Except.map, h]
  | cons c t ih =>
      have hc := hA c (by simp)
      have ht : ∀ d ∈ t, d ≠ '\x7b' ∧ d ≠ '\x7d' := fun d hd => hA d (by simp [hd])
      have step : pyFormatAux kw val .lit (c :: (t ++ rest))
          = (pyFormatAux kw val .lit (t ++ rest)).map fun l => c :: l := by
        conv_lhs => rw [pyFormatAux.eq_def]
        dsimp only
        rw [if_neg hc.1, if_neg hc.2]
      rw [List.cons_append, step, ih ht]
      cases h : pyFormatAux kw val .lit rest <;> simp [Except.map, h]

theorem pyFormatAux_primary_placeholder (val rest : List Char) :
    pyFormatAux "subtitle_text".data val .lit ("\x7bsubtitle_text\x7d".data ++ rest)
      = (pyFormatAux "subtitle_text".data val .lit rest).map fun l => val ++ l := rfl

/-- C6 (counterexample): the template `"\x7bsubtitle_text\x7d \x7bother\x7d"`
contains the primary placeholder, yet formatting it with `"X"` (the second
field raises `KeyError`, so `get_prompt_for_text` falls back to appending the
text) yields a result that still contains the placeholder token. -/
theorem prompt_placeholder_counterexample :
    containsTok "\x7bsubtitle_text\x7d".data "\x7bsubtitle_text\x7d \x7bother\x7d".data = true ∧
    get_prompt_for_text "\x7bsubtitle_text\x7d \x7bother\x7d" "X"
      = .ok "\x7bsubtitle_text\x7d \x7bother\x7d\n\nText to analyze: X" ∧
    containsTok "\x7bsubtitle_text\x7d".data
        "\x7bsubtitle_text\x7d \x7bother\x7d\n\nText to analyze: X".data = true :=
  ⟨by decide, rfl, by decide⟩

/-- C6 (amended): when the primary placeholder is the template's only brace
use (brace-free text around a single `\x7bsubtitle_text\x7d`), formatting
with `"X"` substitutes it, the result contains `"X"`, and the placeholder
token is gone; a template whose braces also form another replacement field
instead falls back to suffix-appending and keeps the placeholder. -/
theorem prompt_placeholder_amended (A B : String)
    (hA : ∀ c ∈ A.data, c ≠ '\x7b' ∧ c ≠ '\x7d')
    (hB : ∀ c ∈ B.data, c ≠ '\x7b' ∧ c ≠ '\x7d') :
    get_prompt_for_text (A ++ "\x7bsubtitle_text\x7d" ++ B) "X" = .ok (A ++ "X" ++ B) ∧
    containsTok "X".data (A ++ "X" ++ B).data = true ∧
    containsTok "\x7bsubtitle_text\x7d".data (A ++ "X" ++ B).data = false := by
  have hdata : (A ++ "\x7bsubtitle_text\x7d" ++ B).data
      = A.data ++ ("\x7bsubtitle_text\x7d".data ++ B.data) := by
    simp [String.data_append]
  have hres : (A ++ "X" ++ B).data = A.data ++ ("X".data ++ B.data) := by
    simp [String.data_append]
  refine ⟨?_, ?_, ?_⟩
  · unfold get_prompt_for_text
    rw [if_pos (by rw [hdata]; exact containsTok_append_middle _ _ _)]
    have hBnil := pyFormatAux_lit_append "subtitle_text".data "X".data B.data [] hB
    rw [List.append_nil] at hBnil
    have hmid : pyFormat "subtitle_text" "X" (A ++ "\x7bsubtitle_text\x7d" ++ B)
        = Except.ok (String.mk (A.data ++ ("X".data ++ (B.data ++ [])))) := by
      unfold pyFormat
      rw [hdata, pyFormatAux_lit_append _ _ _ _ hA, pyFormatAux_primary_placeholder, hBnil]
      rfl
    have hfmt : pyFormat "subtitle_text" "X" (A ++ "\x7bsubtitle_text\x7d" ++ B)
        = .ok (A ++ "X" ++ B) := by
      rw [hmid, List.append_nil, ← hres]
    rw [hfmt]
  · rw [hres]
    exact containsTok_append_middle _ _ _
  · rw [hres]
    refine containsTok_head_absent _ _ '\x7b' rfl fun c hc => ?_
    rcases List.mem_append.mp hc with h | h
    · exact (hA c h).1
    · rcases List.mem_append.mp h with h2 | h2
      · intro he
        subst he
        simp at h2
      · exact (hB c h2).1

/-- Witness for the amended C6 at a concrete brace-free template. -/
theorem prompt_placeholder_amended_witness :
    get_prompt_for_text ("Explain: " ++ "\x7bsubtitle_text\x7d" ++ " now") "X"
        = .ok ("Explain: " ++ "X" ++ " now") ∧
    containsTok "X".data ("Explain: " ++ "X" ++ " now").data = true ∧
    containsTok "\x7bsubtitle_text\x7d".data ("Explain: " ++ "X" ++ " now").data = false :=
  prompt_placeholder_amended "Explain: " " now" (by decide) (by decide)

/-! Helper lemmas about the cleaning pipeline of `clean_subtitle_text`. -/

theorem head_dropWhile_false (p : Char → Bool) :
    ∀ (l : List Char) (c : Char), (l.dropWhile p).head? = some c → p c = false := by
  intro l
  induction l with
  | nil => intro c hc; simp at hc
  | cons a t ih =>
      intro c hc
      rw [List.dropWhile_cons] at hc
      by_cases ha : p a = true
      · rw [if_pos ha] at hc
        exact ih c hc
      · rw [if_neg ha] at hc
        simp at hc
        subst hc
        simpa using ha

theorem getLast?_of_suffix (m n : List Char) (h : m <:+ n) (hm : m ≠ []) :
    n.getLast? = m.getLast? := by
  obtain ⟨t, rfl⟩ := h
  cases hg : m.getLast? with
  | none => exact absurd (List.getLast?_eq_none_iff.mp hg) hm
  | some c => simp [List.getLast?_append, hg]

theorem mem_dropWhile_imp (p : Char → Bool) (l : List Char) :
    ∀ c ∈ l.dropWhile p, c ∈ l :=
  fun _ hc => (List.dropWhile_suffix p).subset hc

theorem stripWS_sub (l : List Char) : ∀ c ∈ stripWS l, c ∈ l := by
  intro c hc
  unfold stripWS at hc
  rw [List.mem_reverse] at hc
  have h1 := mem_dropWhile_imp _ _ c hc
  rw [List.mem_reverse] at h1
  exact mem_dropWhile_imp _ _ c h1

theorem stripWS_last (l : List Char) (c : Char) (h : (stripWS l).getLast? = some c) :
    isSpacePy c = false := by
  unfold stripWS at h
  rw [List.getLast?_reverse] at h
  exact head_dropWhile_false _ _ _ h

theorem stripWS_head (l : List Char) (c : Char) (h : (stripWS l).head? = some c) :
    isSpacePy c = false := by
  unfold stripWS at h
  rw [List.head?_reverse] at h
  have hmne : (l.dropWhile isSpacePy).reverse.dropWhile isSpacePy ≠ [] := by
    intro he
    rw [he] at h
    simp at h
  have h2 : ((l.dropWhile isSpacePy).reverse).getLast? = some c :=
    (getLast?_of_suffix _ _ (List.dropWhile_suffix _) hmne).trans h
  rw [List.getLast?_reverse] at h2
  exact head_dropWhile_false _ _ _ h2

theorem dropWhile_eq_self_of_head (p : Char → Bool) (l : List Char)
    (h : ∀ c, l.head? = some c → p c = false) : l.dropWhile p = l := by
  cases l with
  | nil => rfl
  | cons a t =>
      rw [List.dropWhile_cons]
      simp [h a rfl]

theorem stripWS_eq_self (l : List Char)
    (hh : ∀ c, l.head? = some c → isSpacePy c = false)
    (hl : ∀ c, l.getLast? = some c → isSpacePy c = false) : stripWS l = l := by
  unfold stripWS
  rw [dropWhile_eq_self_of_head _ _ hh]
  have : l.reverse.dropWhile isSpacePy = l.reverse :=
    dropWhile_eq_self_of_head _ _ fun c hc => hl c (by rwa [List.head?_reverse] at hc)
  rw [this, List.reverse_reverse]

theorem collapseWS_cons_cons_pos (c1 c2 : Char) (cs : List Char)
    (h : (isSpacePy c1 && isSpacePy c2) = true) :
    collapseWS (c1 :: c2 :: cs) = collapseWS (c2 :: cs) := by
  have hstep : collapseWS (c1 :: c2 :: cs)
      = if isSpacePy c1 && isSpacePy c2 then collapseWS (c2 :: cs)
        else (if isSpacePy c1 then ' ' else c1) :: collapseWS (c2 :: cs) := rfl
  rw [hstep, if_pos h]

theorem collapseWS_cons_cons_neg (c1 c2 : Char) (cs : List Char)
    (h : ¬((isSpacePy c1 && isSpacePy c2) = true)) :
    collapseWS (c1 :: c2 :: cs)
      = (if isSpacePy c1 then ' ' else c1) :: collapseWS (c2 :: cs) := by
  have hstep : collapseWS (c1 :: c2 :: cs)
      = if isSpacePy c1 && isSpacePy c2 then collapseWS (c2 :: cs)
        else (if isSpacePy c1 then ' ' else c1) :: collapseWS (c2 :: cs) := rfl
  rw [hstep, if_neg h]

theorem collapseWS_ne_nil (l : List Char) : l ≠ [] → collapseWS l ≠ [] := by
  induction l using collapseWS.induct with
  | case1 => intro h; exact absurd rfl h
  | case2 c => intro _; simp [collapseWS]
  | case3 c1 c2 cs hcond ih =>
      intro _
      rw [collapseWS_cons_cons_pos _ _ _ hcond]
      exact ih (by simp)
  | case4 c1 c2 cs hcond ih =>
      intro _
      rw [collapseWS_cons_cons_neg _ _ _ hcond]
      simp

theorem collapseWS_mem (l : List Char) : ∀ c ∈ collapseWS l, c ∈ l ∨ c = ' ' := by
  induction l using collapseWS.induct with
  | case1 => intro c hc; simp [collapseWS] at hc
  | case2 d =>
      intro c hc
      simp [collapseWS] at hc
      by_cases hd : isSpacePy d = true
      · rw [if_pos hd] at hc
        exact Or.inr hc
      · rw [if_neg hd] at hc
        exact Or.inl (by simp [hc])
  | case3 c1 c2 cs hcond ih =>
      intro c hc
      rw [collapseWS_cons_cons_pos _ _ _ hcond] at hc
      rcases ih c hc with h | h
      · exact Or.inl (by simp [List.mem_cons] at h ⊢; tauto)
      · exact Or.inr h
  | case4 c1 c2 cs hcond ih =>
      intro c hc
      rw [collapseWS_cons_cons_neg _ _ _ hcond] at hc
      rcases List.mem_cons.mp hc with h | h
      · by_cases h1 : isSpacePy c1 = true
        · rw [if_pos h1] at h
          exact Or.inr h
        · rw [if_neg h1] at h
          exact Or.inl (by simp [h])
      · rcases ih c h with h2 | h2
        · exact Or.inl (by simp [List.mem_cons] at h2 ⊢; tauto)
        · exact Or.inr h2

theorem collapseWS_spaces (l : List Char) :
    ∀ c ∈ collapseWS l, isSpacePy c = true → c = ' ' := by
  induction l using collapseWS.induct with
  | case1 => intro c hc; simp [collapseWS] at hc
  | case2 d =>
      intro c hc hs
      simp [collapseWS] at hc
      by_cases hd : isSpacePy d = true
      · rw [if_pos hd] at hc
        exact hc
      · rw [if_neg hd] at hc
        rw [hc] at hs
        exact absurd hs (by simp [hd])
  | case3 c1 c2 cs hcond ih =>
      intro c hc hs
      rw [collapseWS_cons_cons_pos _ _ _ hcond] at hc
      exact ih c hc hs
  | case4 c1 c2 cs hcond ih =>
      intro c hc hs
      rw [collapseWS_cons_cons_neg _ _ _ hcond] at hc
      rcases List.mem_cons.mp hc with h | h
      · by_cases h1 : isSpacePy c1 = true
        · rw [if_pos h1] at h
          exact h
        · rw [if_neg h1] at h
          rw [h] at hs
          exact absurd hs (by simp [h1])
      · exact ih c h hs

theorem collapseWS_head (l : List Char) (c : Char) (hc : isSpacePy c = false)
    (hh : l.head? = some c) : (collapseWS l).head? = some c := by
  cases l with
  | nil => simp at hh
  | cons d t =>
      simp at hh
      subst hh
      cases t with
      | nil => simp [collapseWS, hc]
      | cons d2 ds =>
          rw [collapseWS_cons_cons_neg _ _ _ (by simp [hc])]
          simp [hc]

theorem collapseWS_last (l : List Char) :
    ∀ c, isSpacePy c = false → l.getLast? = some c → (collapseWS l).getLast? = some c := by
  induction l using collapseWS.induct with
  | case1 => intro c _ h; simp at h
  | case2 d =>
      intro c hc h
      simp at h
      subst h
      simp [collapseWS, hc]
  | case3 c1 c2 cs hcond ih =>
      intro c hc h
      rw [List.getLast?_cons_cons] at h
      rw [collapseWS_cons_cons_pos _ _ _ hcond]
      exact ih c hc h
  | case4 c1 c2 cs hcond ih =>
      intro c hc h
      rw [List.getLast?_cons_cons] at h
      rw [collapseWS_cons_cons_neg _ _ _ hcond]
      have hrec := ih c hc h
      cases hX : collapseWS (c2 :: cs) with
      | nil => exact absurd hX (collapseWS_ne_nil _ (by simp))
      | cons y ys =>
          rw [List.getLast?_cons_cons, ← hX]
          exact hrec

theorem collapseWS_noAdj (l : List Char) : noAdjSp (collapseWS l) = true := by
  induction l using collapseWS.induct with
  | case1 => rfl
  | case2 d => rfl
  | case3 c1 c2 cs hcond ih =>
      rw [collapseWS_cons_cons_pos _ _ _ hcond]
      exact ih
  | case4 c1 c2 cs hcond ih =>
      rw [collapseWS_cons_cons_neg _ _ _ hcond]
      cases hX : collapseWS (c2 :: cs) with
      | nil => rfl
      | cons y ys =>
          rw [hX] at ih
          have hxy : (isSpacePy (if isSpacePy c1 then ' ' else c1) && isSpacePy y) = false := by
            by_cases h1 : isSpacePy c1 = true
            · have h2 : isSpacePy c2 = false := by
                cases hc2 : isSpacePy c2
                · rfl
                · exact absurd (by simp [h1, hc2] : (isSpacePy c1 && isSpacePy c2) = true) hcond
              have hhead := collapseWS_head (c2 :: cs) c2 h2 rfl
              rw [hX] at hhead
              simp at hhead
              rw [if_pos h1]
              simp [hhead, h2]
            · rw [if_neg h1]
              simp [Bool.not_eq_true] at h1
              simp [h1]
          show (!(isSpacePy (if isSpacePy c1 then ' ' else c1) && isSpacePy y)
              && noAdjSp (y :: ys)) = true
          rw [hxy, ih]
          rfl

theorem collapseWS_eq_self (l : List Char) :
    (∀ c ∈ l, isSpacePy c = true → c = ' ') → noAdjSp l = true → collapseWS l = l := by
  induction l using collapseWS.induct with
  | case1 => intro _ _; rfl
  | case2 d =>
      intro hsp _
      by_cases hd : isSpacePy d = true
      · have : d = ' ' := hsp d (by simp) hd
        simp [collapseWS, hd, this]
      · simp [collapseWS, hd]
  | case3 c1 c2 cs hcond ih =>
      intro hsp hadj
      exfalso
      have hshape : noAdjSp (c1 :: c2 :: cs)
          = (!(isSpacePy c1 && isSpacePy c2) && noAdjSp (c2 :: cs)) := rfl
      rw [hshape, hcond] at hadj
      simp at hadj
  | case4 c1 c2 cs hcond ih =>
      intro hsp hadj
      have hshape : noAdjSp (c1 :: c2 :: cs)
          = (!(isSpacePy c1 && isSpacePy c2) && noAdjSp (c2 :: cs)) := rfl
      rw [hshape] at hadj
      have hadj2 : noAdjSp (c2 :: cs) = true := (Bool.and_eq_true_iff.mp hadj).2
      have hsp2 : ∀ c ∈ c2 :: cs, isSpacePy c = true → c = ' ' :=
        fun c hcm => hsp c (by simp [List.mem_cons] at hcm ⊢; tauto)
      rw [collapseWS_cons_cons_neg _ _ _ hcond, ih hsp2 hadj2]
      by_cases h1 : isSpacePy c1 = true
      · rw [if_pos h1, hsp c1 (by simp) h1]
      · rw [if_neg h1]

theorem cleanL_allowed (l : List Char) : ∀ c ∈ cleanL l, allowedChar c = true :=
  fun _ hc => (List.mem_filter.mp hc).2

theorem collapse_strip_allowed (x : List Char) (hx : ∀ c ∈ x, allowedChar c = true) :
    ∀ c ∈ collapseWS (stripWS x), allowedChar c = true := by
  intro c hc
  rcases collapseWS_mem _ c hc with h | h
  · exact hx c (stripWS_sub x c h)
  · rw [h]
    decide

theorem cleanL_of_allowed (x : List Char) (hx : ∀ c ∈ x, allowedChar c = true) :
    cleanL x = collapseWS (stripWS x) := by
  unfold cleanL
  exact List.filter_eq_self.mpr (collapse_strip_allowed x hx)

theorem cleanL_normal_fixpoint (x : List Char) (hx : ∀ c ∈ x, allowedChar c = true) :
    cleanL (collapseWS (stripWS x)) = collapseWS (stripWS x) := by
  have hall : ∀ c ∈ collapseWS (stripWS x), allowedChar c = true := collapse_strip_allowed x hx
  have hsp : ∀ c ∈ collapseWS (stripWS x), isSpacePy c = true → c = ' ' :=
    fun c hc hs => collapseWS_spaces _ c hc hs
  have hadj : noAdjSp (collapseWS (stripWS x)) = true := collapseWS_noAdj _
  have hh : ∀ c, (collapseWS (stripWS x)).head? = some c → isSpacePy c = false := by
    intro c hc
    cases hs : (stripWS x).head? with
    | none =>
        rw [List.head?_eq_none_iff] at hs
        rw [hs] at hc
        simp [collapseWS] at hc
    | some c0 =>
        have h0 : isSpacePy c0 = false := stripWS_head x c0 hs
        have hceq := collapseWS_head (stripWS x) c0 h0 hs
        rw [hceq] at hc
        rw [← Option.some.inj hc]
        exact h0
  have hl : ∀ c, (collapseWS (stripWS x)).getLast? = some c → isSpacePy c = false := by
    intro c hc
    cases hs : (stripWS x).getLast? with
    | none =>
        rw [List.getLast?_eq_none_iff] at hs
        rw [hs] at hc
        simp [collapseWS] at hc
    | some c0 =>
        have h0 : isSpacePy c0 = false := stripWS_last x c0 hs
        have hceq := collapseWS_last (stripWS x) c0 h0 hs
        rw [hceq] at hc
        rw [← Option.some.inj hc]
        exact h0
  unfold cleanL
  rw [stripWS_eq_self _ hh hl, collapseWS_eq_self _ hsp hadj]
  exact List.filter_eq_self.mpr hall

theorem cleanL_thrice (l : List Char) :
    cleanL (cleanL (cleanL l)) = cleanL (cleanL l) := by
  have hx : ∀ c ∈ cleanL l, allowedChar c = true := cleanL_allowed l
  have h2 : cleanL (cleanL l) = collapseWS (stripWS (cleanL l)) := cleanL_of_allowed _ hx
  rw [h2]
  exact cleanL_normal_fixpoint _ hx

theorem clean_subtitle_text_eq_mk (s : String) :
    clean_subtitle_text s = String.mk (cleanL s.data) := by
  by_cases h : s = ""
  · subst h; rfl
  · simp [clean_subtitle_text, cleanL, h]

/-- C4 (counterexample): `clean_subtitle_text` is not idempotent — removing
the disallowed `@` of `"a @ b"` merges two whitespace runs, so a second
application collapses further. -/
theorem clean_not_idempotent_counterexample :
    clean_subtitle_text (clean_subtitle_text "a @ b") ≠ clean_subtitle_text "a @ b" := by
  decide

/-- C4 (amended): the cleaning function used by `process_text` becomes
idempotent only after one extra pass: for every string `s`,
`clean(clean(clean s)) = clean(clean s)` — the composite `clean ∘ clean` is
idempotent, while `clean` itself is not. -/
theorem clean_twice_idempotent (s : String) :
    clean_subtitle_text (clean_subtitle_text (clean_subtitle_text s))
      = clean_subtitle_text (clean_subtitle_text s) := by
  have hdata : ∀ m : List Char, (String.mk m).data = m := fun _ => rfl
  simp only [clean_subtitle_text_eq_mk, hdata]
  rw [cleanL_thrice]

end SubCtx
